import Mathlib

/-!
Verification development for the threaded request pool
(requests_toolbelt/threaded/pool.py).

Shallow embedding: Python dicts become association lists with
insertion-order update semantics, the three queues become lists
(front = next element popped), sessions are an abstract type, and the
worker loop (which lives outside the pool module) is modelled from the
specification as a small-step transition system.
-/

/-- A Python value, as far as the pool manipulates them: strings
(methods, urls), integers, frozensets of strings (the attrs class
attribute), dicts (request kwargs), plain objects with named attributes
(responses and exceptions), and bound methods. -/
inductive Value where
  | str : String → Value
  | num : Int → Value
  | fset : List String → Value
  | dict : List (String × Value) → Value
  | obj : List (String × Value) → Value
  | method : String → Value

/-- A Python dict: keys in insertion order; a well-formed dict holds
each key at most once. -/
abbrev PyDict := List (String × Value)

/-- Dict lookup: the value stored at the (first) occurrence of the key,
none when the key is absent. -/
def dictLookup : PyDict → String → Option Value
  | [], _ => none
  | p :: ps, k => if p.1 = k then some p.2 else dictLookup ps k

/-- One assignment d[k] = v with Python insertion-order semantics: an
existing key keeps its position and gets the new value, a new key is
appended at the end. -/
def dictSet : PyDict → String → Value → PyDict
  | [], k, v => [(k, v)]
  | p :: ps, k, v => if p.1 = k then (k, v) :: ps else p :: dictSet ps k v

/-- d.update(u): assign every entry of u into d, in the order of u. -/
def dictUpdate (d : PyDict) (u : PyDict) : PyDict :=
  List.foldl (fun acc p => dictSet acc p.1 p.2) d u

/-- The keys of a dict. -/
def dictKeys (d : PyDict) : List String :=
  List.map (fun p => p.1) d

/-- Pool.from_urls, job-construction part: request_dict starts as the
dict holding method GET, is updated with request_kwargs, and each url
contributes one job — a copy of request_dict updated with that url —
put on the job queue in iteration order. -/
def fromUrlsJobs (urls : List String) (request_kwargs : PyDict) : List PyDict :=
  let request_dict := dictUpdate [("method", Value.str "GET")] request_kwargs
  List.foldl (fun q url => q ++ [dictUpdate request_dict [("url", Value.str url)]]) [] urls

/-- A ThreadException wrapper: the original request kwargs plus the
captured exception object. -/
structure ThreadExceptionM where
  request_kwargs : PyDict
  exception : Value

/-- A ThreadResponse wrapper: the original request kwargs plus the
wrapped response object. -/
structure ThreadResponseM where
  request_kwargs : PyDict
  response : Value

/-- Pool.from_exceptions, job-construction part: each supplied failure
wrapper contributes its request_kwargs, put on the job queue in
iteration order. -/
def fromExceptionsJobs (excs : List ThreadExceptionM) : List PyDict :=
  List.foldl (fun q exc => q ++ [exc.request_kwargs]) [] excs

-- Basic lemmas about the queue-filling folds and the dict operations.

theorem foldl_put_eq_map {α β : Type} (f : α → β) (xs : List α) (acc : List β) :
    List.foldl (fun q x => q ++ [f x]) acc xs = acc ++ List.map f xs := by
  induction xs generalizing acc with
  | nil => simp
  | cons x xs ih => simp [List.foldl, ih]

theorem dictLookup_dictSet (d : PyDict) (k k' : String) (v : Value) :
    dictLookup (dictSet d k v) k' = if k' = k then some v else dictLookup d k' := by
  induction d with
  | nil =>
    by_cases h : k' = k
    · simp [dictSet, dictLookup, h]
    · have h2 : k ≠ k' := fun hkk => h hkk.symm
      simp [dictSet, dictLookup, h, h2]
  | cons p ps ih =>
    by_cases hp : p.1 = k
    · by_cases hk : k' = k
      · simp [dictSet, dictLookup, hp, hk]
      · have hpk' : p.1 ≠ k' := fun h => hk (h ▸ hp ▸ rfl)
        have hk2 : k ≠ k' := fun hkk => hk hkk.symm
        simp [dictSet, dictLookup, hp, hk, hpk', hk2]
    · by_cases hpk' : p.1 = k'
      · have hk : k' ≠ k := fun h => hp (hpk'.trans h)
        simp [dictSet, dictLookup, hp, hpk', hk]
      · simp [dictSet, dictLookup, hp, hpk', ih]

/-- First branch wins, as Python attribute/key fallbacks do. -/
def optOr {α : Type} : Option α → Option α → Option α
  | some v, _ => some v
  | none, b => b

theorem dictLookup_eq_none_of_not_mem (d : PyDict) (k : String)
    (h : k ∉ dictKeys d) : dictLookup d k = none := by
  induction d with
  | nil => rfl
  | cons p ps ih =>
    have hp : p.1 ≠ k := fun hk => h (by simp [dictKeys, hk])
    have hps : k ∉ dictKeys ps := fun hk => h (by simp [dictKeys] at hk ⊢; exact Or.inr hk)
    simp [dictLookup, hp, ih hps]

theorem dictLookup_dictUpdate (d u : PyDict) (k : String)
    (hu : (dictKeys u).Nodup) :
    dictLookup (dictUpdate d u) k = optOr (dictLookup u k) (dictLookup d k) := by
  induction u generalizing d with
  | nil => simp [dictUpdate, dictLookup, optOr]
  | cons p ps ih =>
    have hnd : (dictKeys ps).Nodup := (List.nodup_cons.mp (by simpa [dictKeys] using hu)).2
    have hnotin : p.1 ∉ dictKeys ps := (List.nodup_cons.mp (by simpa [dictKeys] using hu)).1
    show dictLookup (dictUpdate (dictSet d p.1 p.2) ps) k = _
    rw [ih _ hnd]
    by_cases hk : k = p.1
    · have hnone : dictLookup ps k = none := by
        rw [hk]
        exact dictLookup_eq_none_of_not_mem ps p.1 hnotin
      have hp1 : p.1 = k := hk.symm
      rw [hnone, dictLookup_dictSet, if_pos hk]
      simp [optOr, dictLookup, hp1]
    · have hpk : p.1 ≠ k := fun h => hk h.symm
      simp [dictLookup, hpk, dictLookup_dictSet, hk]

/-!
Pool construction (Pool.__init__, Pool._new_session, _identity).

The session type is abstract. Distinct calls of the session constructor
are modelled by indexing: sessionCtor i is the result of the i-th call
of self._session() made while building self._pool, so each worker slot
gets its own fresh call. cpuCount is the value returned by
multiprocessing.cpu_count().
-/

/-- The identity default from the source, named _identity there. -/
def _identity {Client : Type} (session_obj : Client) : Client := session_obj

/-- The state a Pool holds after __init__: the job queue, the two
(initially empty) outcome queues, the validated worker count, and one
session per worker thread. -/
structure PoolModel (Client : Type) where
  job_queue : List PyDict
  response_queue : List (PyDict × Value)
  exc_queue : List (PyDict × Value)
  processes : Nat
  pool : List Client

/-- Pool._new_session: the auth generator applied to the initializer
applied to one fresh session-constructor call. -/
def newSession {Client : Type} (auth initializer : Client → Client) (ctorCall : Client) : Client :=
  auth (initializer ctorCall)

/-- Pool.__init__: when num_processes is not supplied it defaults to
cpu_count() or 1; a count below 1 raises ValueError before any session
or thread is built; otherwise the pool of num_processes session threads
is built, each with its own _new_session() result. -/
def poolInit {Client : Type} (job_queue : List PyDict)
    (initializer auth_generator : Option (Client → Client))
    (num_processes : Option Int) (sessionCtor : Nat → Client)
    (cpuCount : Nat) : Except String (PoolModel Client) :=
  let np : Int :=
    match num_processes with
    | none => ((if cpuCount = 0 then 1 else cpuCount : Nat) : Int)
    | some n => n
  if np < 1 then
    Except.error "Number of processes should at least be 1."
  else
    let ini := initializer.getD _identity
    let auth := auth_generator.getD _identity
    Except.ok
      { job_queue := job_queue
        response_queue := []
        exc_queue := []
        processes := np.toNat
        pool := List.map (fun i => newSession auth ini (sessionCtor i)) (List.range np.toNat) }

/-- Pool.from_urls: fill a fresh job queue from the urls and delegate
the rest of the construction to __init__. -/
def from_urls {Client : Type} (urls : List String) (request_kwargs : PyDict)
    (initializer auth_generator : Option (Client → Client))
    (num_processes : Option Int) (sessionCtor : Nat → Client)
    (cpuCount : Nat) : Except String (PoolModel Client) :=
  poolInit (fromUrlsJobs urls request_kwargs) initializer auth_generator
    num_processes sessionCtor cpuCount

/-- Pool.from_exceptions: fill a fresh job queue from the failures and
delegate the rest of the construction to __init__. -/
def from_exceptions {Client : Type} (excs : List ThreadExceptionM)
    (initializer auth_generator : Option (Client → Client))
    (num_processes : Option Int) (sessionCtor : Nat → Client)
    (cpuCount : Nat) : Except String (PoolModel Client) :=
  poolInit (fromExceptionsJobs excs) initializer auth_generator
    num_processes sessionCtor cpuCount

/-!
Outcome retrieval (Pool.get_response, Pool.get_exception,
Pool.responses, Pool.exceptions).

A queue.Queue of outcomes is a list whose head is the next element
get_nowait returns; get_nowait on an empty queue raises queue.Empty.
-/

/-- queue.Queue.get_nowait: the front element and the remaining queue,
or the Empty signal. -/
def getNowait {α : Type} : List α → Except Unit (α × List α)
  | [] => Except.error ()
  | x :: xs => Except.ok (x, xs)

/-- ThreadProxy.from_queue for ThreadResponse: unpack the queue tuple
into a wrapper. -/
def threadResponseFromQueue (qtuple : PyDict × Value) : ThreadResponseM :=
  { request_kwargs := qtuple.1, response := qtuple.2 }

/-- ThreadProxy.from_queue for ThreadException: unpack the queue tuple
into a wrapper. -/
def threadExceptionFromQueue (qtuple : PyDict × Value) : ThreadExceptionM :=
  { request_kwargs := qtuple.1, exception := qtuple.2 }

/-- Pool.get_response: try a non-blocking pop of the response queue;
on Empty return None and leave the queue as it was. -/
def getResponse (q : List (PyDict × Value)) :
    Option ThreadResponseM × List (PyDict × Value) :=
  match getNowait q with
  | Except.ok (x, rest) => (some (threadResponseFromQueue x), rest)
  | Except.error _ => (none, q)

/-- Pool.get_exception: try a non-blocking pop of the exception queue;
on Empty return None and leave the queue as it was. -/
def getException (q : List (PyDict × Value)) :
    Option ThreadExceptionM × List (PyDict × Value) :=
  match getNowait q with
  | Except.ok (x, rest) => (some (threadExceptionFromQueue x), rest)
  | Except.error _ => (none, q)

/-- n successive get_response calls against the queue: the list of
results in call order, and the final queue. -/
def repeatGetResponse : Nat → List (PyDict × Value) →
    List (Option ThreadResponseM) × List (PyDict × Value)
  | 0, q => ([], q)
  | Nat.succ n, q =>
    let step := getResponse q
    let rest := repeatGetResponse n step.2
    (step.1 :: rest.1, rest.2)

/-- n successive get_exception calls against the queue: the list of
results in call order, and the final queue. -/
def repeatGetException : Nat → List (PyDict × Value) →
    List (Option ThreadExceptionM) × List (PyDict × Value)
  | 0, q => ([], q)
  | Nat.succ n, q =>
    let step := getException q
    let rest := repeatGetException n step.2
    (step.1 :: rest.1, rest.2)

/-- Pool.responses: what the generator loop yields from a queue with no
concurrent producer, together with the queue it leaves behind — it pops
until a pop reports Empty and breaks there. -/
def responsesDrain : List (PyDict × Value) →
    List ThreadResponseM × List (PyDict × Value)
  | [] => ([], [])
  | x :: xs =>
    let rest := responsesDrain xs
    (threadResponseFromQueue x :: rest.1, rest.2)

/-- Pool.exceptions: the same loop over the exception queue. -/
def exceptionsDrain : List (PyDict × Value) →
    List ThreadExceptionM × List (PyDict × Value)
  | [] => ([], [])
  | x :: xs =>
    let rest := exceptionsDrain xs
    (threadExceptionFromQueue x :: rest.1, rest.2)

/-- The drain really is the loop "pop; break on None; else yield and
continue": one unfolding step of responsesDrain is one get_response. -/
theorem responsesDrain_loop (q : List (PyDict × Value)) :
    responsesDrain q =
      match getResponse q with
      | (none, qe) => ([], qe)
      | (some r, q2) => (r :: (responsesDrain q2).1, (responsesDrain q2).2) := by
  cases q with
  | nil => rfl
  | cons x xs => rfl

/-- One unfolding step of exceptionsDrain is one get_exception. -/
theorem exceptionsDrain_loop (q : List (PyDict × Value)) :
    exceptionsDrain q =
      match getException q with
      | (none, qe) => ([], qe)
      | (some r, q2) => (r :: (exceptionsDrain q2).1, (exceptionsDrain q2).2) := by
  cases q with
  | nil => rfl
  | cons x xs => rfl

/-!
Attribute access on the outcome wrappers (ThreadProxy.__getattr__ and
the class bodies of ThreadResponse / ThreadException).

Python resolves an attribute by ordinary lookup first — the instance
dict (request_kwargs and the proxied field, both set by __init__), then
the class attributes (proxied_attr, attrs, from_queue, __getattr__,
__init__) — and only calls __getattr__ when that fails. __getattr__
then forwards any name outside self.attrs to the proxied object, and
raises AttributeError (modelled as none) otherwise.
-/

/-- getattr on the proxied object: its attribute of that name, if any. -/
def objGetattr (v : Value) (name : String) : Option Value :=
  match v with
  | Value.obj attributes => dictLookup attributes name
  | _ => none

/-- The class attributes a ThreadProxy subclass exposes, given its
proxied_attr string and its attrs frozenset. -/
def threadProxyClassLookup (proxied : String) (attrsSet : List String)
    (name : String) : Option Value :=
  if name = "proxied_attr" then some (Value.str proxied)
  else if name = "attrs" then some (Value.fset attrsSet)
  else if name = "from_queue" then some (Value.method "from_queue")
  else if name = "__getattr__" then some (Value.method "__getattr__")
  else if name = "__init__" then some (Value.method "__init__")
  else none

/-- Full attribute access on a ThreadResponse: the two instance fields,
then the class attributes, then __getattr__ forwarding to response. -/
def threadResponseGetattr (w : ThreadResponseM) (name : String) : Option Value :=
  if name = "request_kwargs" then some (Value.dict w.request_kwargs)
  else if name = "response" then some w.response
  else
    match threadProxyClassLookup "response" ["request_kwargs", "response"] name with
    | some v => some v
    | none =>
      if name ∈ (["request_kwargs", "response"] : List String) then none
      else objGetattr w.response name

/-- Full attribute access on a ThreadException: the two instance
fields, then the class attributes, then __getattr__ forwarding to
exception. -/
def threadExceptionGetattr (w : ThreadExceptionM) (name : String) : Option Value :=
  if name = "request_kwargs" then some (Value.dict w.request_kwargs)
  else if name = "exception" then some w.exception
  else
    match threadProxyClassLookup "exception" ["request_kwargs", "exception"] name with
    | some v => some v
    | none =>
      if name ∈ (["request_kwargs", "exception"] : List String) then none
      else objGetattr w.exception name

/-!
Heap-level view of Pool.from_urls, for the aliasing claims. Dicts live
in a store addressed by allocation order; the request_kwargs dict of the caller
dict sits at an address in the initial store, request_dict is built by
value from it, and every job dict is a fresh allocation appended to the
store.
-/

/-- The dict heap: address = position, allocation appends. -/
abbrev Store := List PyDict

/-- Read the dict at an address (the empty dict for a dangling one). -/
def storeGet (st : Store) (a : Nat) : PyDict := st.getD a []

/-- Overwrite the dict at an address, as a mutating job.update would. -/
def storeSet (st : Store) (a : Nat) (d : PyDict) : Store := st.set a d

/-- Pool.from_urls at the heap level: read request_kwargs once, build
request_dict, then per url allocate a fresh copy updated with the url.
Returns the final store and the addresses of the enqueued jobs. -/
def fromUrlsAlloc (st : Store) (rkAddr : Nat) (urls : List String) :
    Store × List Nat :=
  let request_dict := dictUpdate [("method", Value.str "GET")] (storeGet st rkAddr)
  List.foldl
    (fun acc url =>
      (acc.1 ++ [dictUpdate request_dict [("url", Value.str url)]],
       acc.2 ++ [acc.1.length]))
    (st, []) urls

theorem fromUrlsAlloc_fold (rd : PyDict) (urls : List String)
    (st : Store) (addrs : List Nat) :
    List.foldl
        (fun acc url =>
          (acc.1 ++ [dictUpdate rd [("url", Value.str url)]],
           acc.2 ++ [acc.1.length]))
        (st, addrs) urls =
      (st ++ List.map (fun url => dictUpdate rd [("url", Value.str url)]) urls,
       addrs ++ List.range' st.length urls.length) := by
  induction urls generalizing st addrs with
  | nil => simp
  | cons u us ih =>
    simp only [List.foldl]
    rw [ih]
    refine Prod.ext ?_ ?_
    · simp
    · simp [List.range'_succ]

/-- fromUrlsAlloc appends exactly the value-level jobs to the store and
hands back their addresses, which are the next |urls| fresh ones. -/
theorem fromUrlsAlloc_spec (st : Store) (rkAddr : Nat) (urls : List String) :
    fromUrlsAlloc st rkAddr urls =
      (st ++ fromUrlsJobs urls (storeGet st rkAddr),
       List.range' st.length urls.length) := by
  unfold fromUrlsAlloc fromUrlsJobs
  rw [fromUrlsAlloc_fold, foldl_put_eq_map]
  simp

/-!
The Worker loop — modelled from the spec. The SessionThread class the
pool starts is outside this module; per the specification a worker
repeatedly pulls a request description from the job queue, executes it,
and pushes exactly one outcome — to the success queue if the transport
returns a response, to the failure queue if it raises — and terminates
when a pull finds the queue empty. The system below interleaves any
number of such workers one atomic action at a time.
-/

/-- What one worker thread is doing: waiting for a pull, holding a
pulled job whose outcome it has not pushed yet, or terminated. -/
inductive WStatus (Job : Type) where
  | idle : WStatus Job
  | busy : Job → WStatus Job
  | dead : WStatus Job

/-- Worker holds a pulled, unfinished job. -/
def isBusyW {Job : Type} : WStatus Job → Bool
  | WStatus.busy _ => true
  | _ => false

/-- Worker has terminated. -/
def isDeadW {Job : Type} : WStatus Job → Bool
  | WStatus.dead => true
  | _ => false

/-- The shared state: the job queue, the two outcome queues, and the
status of every worker. -/
structure WState (Job Resp Err : Type) where
  jobs : List Job
  successes : List (Job × Resp)
  failures : List (Job × Err)
  workers : List (WStatus Job)

/-- One atomic action of some worker, given the transport exec. -/
inductive WStep {Job Resp Err : Type} (exec : Job → Except Err Resp) :
    WState Job Resp Err → WState Job Resp Err → Prop where
  | pull (s : WState Job Resp Err) (i : Nat) (j : Job) (rest : List Job)
      (hw : s.workers.getD i WStatus.dead = WStatus.idle)
      (hj : s.jobs = j :: rest) :
      WStep exec s
        { s with jobs := rest, workers := s.workers.set i (WStatus.busy j) }
  | pushOk (s : WState Job Resp Err) (i : Nat) (j : Job) (r : Resp)
      (hw : s.workers.getD i WStatus.dead = WStatus.busy j)
      (hr : exec j = Except.ok r) :
      WStep exec s
        { s with successes := s.successes ++ [(j, r)],
                 workers := s.workers.set i WStatus.idle }
  | pushErr (s : WState Job Resp Err) (i : Nat) (j : Job) (e : Err)
      (hw : s.workers.getD i WStatus.dead = WStatus.busy j)
      (hr : exec j = Except.error e) :
      WStep exec s
        { s with failures := s.failures ++ [(j, e)],
                 workers := s.workers.set i WStatus.idle }
  | terminate (s : WState Job Resp Err) (i : Nat)
      (hw : s.workers.getD i WStatus.dead = WStatus.idle)
      (hj : s.jobs = []) :
      WStep exec s { s with workers := s.workers.set i WStatus.dead }

/-- The state right after join is entered: the submitted jobs queued,
no outcomes yet, k workers about to pull. -/
def initWState (Job Resp Err : Type) (J : List Job) (k : Nat) :
    WState Job Resp Err :=
  { jobs := J, successes := [], failures := [], workers := List.replicate k WStatus.idle }

-- Helper facts about worker lists.

theorem getD_lt_length {α : Type} {l : List α} {i : Nat} {d a : α}
    (h : l.getD i d = a) (hne : a ≠ d) : i < l.length := by
  by_contra hge
  push_neg at hge
  rw [List.getD_eq_default l d hge] at h
  exact hne h.symm

theorem countP_set_balance {α : Type} (p : α → Bool) (l : List α) (i : Nat)
    (x d : α) (hi : i < l.length) :
    List.countP p (l.set i x) + (if p (l.getD i d) then 1 else 0) =
      List.countP p l + (if p x then 1 else 0) := by
  induction l generalizing i with
  | nil => simp at hi
  | cons y ys ih =>
    cases i with
    | zero =>
      simp only [List.set, List.getD_cons_zero, List.countP_cons]
      omega
    | succ n =>
      have hn : n < ys.length := by simpa using hi
      simp only [List.set, List.getD_cons_succ, List.countP_cons]
      have := ih n hn
      omega

theorem all_dead_no_busy {Job : Type} (ws : List (WStatus Job))
    (h : ws.all isDeadW = true) : List.countP isBusyW ws = 0 := by
  rw [List.countP_eq_zero]
  intro a ha
  have hd := List.all_eq_true.mp h a ha
  cases a with
  | idle => simp [isDeadW] at hd
  | busy j => simp [isDeadW] at hd
  | dead => simp [isBusyW]


theorem isBusyW_idle (Job : Type) : isBusyW (@WStatus.idle Job) = false := rfl

theorem isBusyW_dead (Job : Type) : isBusyW (@WStatus.dead Job) = false := rfl

theorem isBusyW_busy {Job : Type} (j : Job) : isBusyW (WStatus.busy j) = true := rfl

theorem isDeadW_idle (Job : Type) : isDeadW (@WStatus.idle Job) = false := rfl

theorem isDeadW_busy {Job : Type} (j : Job) : isDeadW (WStatus.busy j) = false := rfl

theorem mem_set_self {α : Type} (l : List α) (i : Nat) (x : α)
    (hi : i < l.length) : x ∈ l.set i x := by
  induction l generalizing i with
  | nil => simp at hi
  | cons y ys ih =>
    cases i with
    | zero => simp [List.set]
    | succ n =>
      simp only [List.set, List.mem_cons]
      exact Or.inr (ih n (by simpa using hi))

theorem not_all_dead_of_set {Job : Type} {ws : List (WStatus Job)} {i : Nat}
    {x : WStatus Job} (hi : i < ws.length) (hx : isDeadW x = false)
    (h : (ws.set i x).all isDeadW = true) : False := by
  have := List.all_eq_true.mp h x (mem_set_self ws i x hi)
  rw [hx] at this
  exact Bool.false_ne_true this

/-- The conserved quantity: outcomes already pushed, jobs still queued,
and jobs pulled but not yet pushed. -/
def wMeasure {Job Resp Err : Type} (s : WState Job Resp Err) : Nat :=
  s.successes.length + s.failures.length + s.jobs.length +
    List.countP isBusyW s.workers

/-- The run invariant: the measure never changes, and the only way
every worker is terminated is with an empty job queue. -/
def wInv {Job Resp Err : Type} (N : Nat) (s : WState Job Resp Err) : Prop :=
  wMeasure s = N ∧ (s.workers.all isDeadW = true → s.jobs = [])

theorem wInv_step {Job Resp Err : Type} (exec : Job → Except Err Resp)
    {s t : WState Job Resp Err} {N : Nat}
    (hinv : wInv N s) (hstep : WStep exec s t) : wInv N t := by
  obtain ⟨hm, hd⟩ := hinv
  cases hstep with
  | pull i j rest hw hj =>
    have hi : i < s.workers.length :=
      getD_lt_length hw (fun h => WStatus.noConfusion h)
    have hc := countP_set_balance isBusyW s.workers i (WStatus.busy j) WStatus.dead hi
    rw [hw] at hc
    simp only [isBusyW_idle, isBusyW_busy, if_true, if_false, Bool.false_eq_true] at hc
    refine ⟨?_, ?_⟩
    · show s.successes.length + s.failures.length + rest.length +
        List.countP isBusyW (s.workers.set i (WStatus.busy j)) = N
      unfold wMeasure at hm
      rw [hj] at hm
      simp only [List.length_cons] at hm
      omega
    · intro hall
      exact (not_all_dead_of_set hi (isDeadW_busy j) hall).elim
  | pushOk i j r hw hr =>
    have hi : i < s.workers.length :=
      getD_lt_length hw (fun h => WStatus.noConfusion h)
    have hc := countP_set_balance isBusyW s.workers i WStatus.idle WStatus.dead hi
    rw [hw] at hc
    simp only [isBusyW_idle, isBusyW_busy, if_true, if_false, Bool.false_eq_true] at hc
    refine ⟨?_, ?_⟩
    · show (s.successes ++ [(j, r)]).length + s.failures.length + s.jobs.length +
        List.countP isBusyW (s.workers.set i WStatus.idle) = N
      unfold wMeasure at hm
      simp only [List.length_append, List.length_cons, List.length_nil]
      omega
    · intro hall
      exact (not_all_dead_of_set hi (isDeadW_idle Job) hall).elim
  | pushErr i j e hw hr =>
    have hi : i < s.workers.length :=
      getD_lt_length hw (fun h => WStatus.noConfusion h)
    have hc := countP_set_balance isBusyW s.workers i WStatus.idle WStatus.dead hi
    rw [hw] at hc
    simp only [isBusyW_idle, isBusyW_busy, if_true, if_false, Bool.false_eq_true] at hc
    refine ⟨?_, ?_⟩
    · show s.successes.length + (s.failures ++ [(j, e)]).length + s.jobs.length +
        List.countP isBusyW (s.workers.set i WStatus.idle) = N
      unfold wMeasure at hm
      simp only [List.length_append, List.length_cons, List.length_nil]
      omega
    · intro hall
      exact (not_all_dead_of_set hi (isDeadW_idle Job) hall).elim
  | terminate i hw hj =>
    have hi : i < s.workers.length :=
      getD_lt_length hw (fun h => WStatus.noConfusion h)
    have hc := countP_set_balance isBusyW s.workers i WStatus.dead WStatus.dead hi
    rw [hw] at hc
    simp only [isBusyW_idle, isBusyW_dead, if_false, Bool.false_eq_true] at hc
    refine ⟨?_, ?_⟩
    · show s.successes.length + s.failures.length + s.jobs.length +
        List.countP isBusyW (s.workers.set i WStatus.dead) = N
      unfold wMeasure at hm
      omega
    · intro _
      exact hj

theorem wInv_reachable {Job Resp Err : Type} (exec : Job → Except Err Resp)
    {s0 s : WState Job Resp Err} {N : Nat}
    (h : Relation.ReflTransGen (WStep exec) s0 s) (h0 : wInv N s0) :
    wInv N s := by
  induction h with
  | refl => exact h0
  | tail hst step ih => exact wInv_step exec ih step

theorem wInv_init {Job Resp Err : Type} (J : List Job) (k : Nat) (hk : 0 < k) :
    wInv J.length (initWState Job Resp Err J k) := by
  refine ⟨?_, ?_⟩
  · show 0 + 0 + J.length + List.countP isBusyW (List.replicate k WStatus.idle) = J.length
    have hz : List.countP isBusyW (List.replicate k (@WStatus.idle Job)) = 0 := by
      rw [List.countP_eq_zero]
      intro a ha
      rw [List.eq_of_mem_replicate ha]
      simp [isBusyW]
    omega
  · intro hall
    cases k with
    | zero => exact absurd hk (by omega)
    | succ n =>
      rw [show initWState Job Resp Err J (n + 1) =
        { jobs := J, successes := [], failures := [],
          workers := WStatus.idle :: List.replicate n WStatus.idle } from
          by simp [initWState, List.replicate_succ]] at hall
      simp [List.all_cons, isDeadW] at hall

-- Small helpers used by the claim theorems.

theorem dictUpdate_single (d : PyDict) (k : String) (v : Value) :
    dictUpdate d [(k, v)] = dictSet d k v := rfl

theorem optOr_none_right {α : Type} (a : Option α) : optOr a none = a := by
  cases a <;> rfl

theorem getD_set_ne {α : Type} (l : List α) (a b : Nat) (x d : α)
    (hab : a ≠ b) : (l.set a x).getD b d = l.getD b d := by
  induction l generalizing a b with
  | nil => simp [List.set]
  | cons y ys ih =>
    cases a with
    | zero =>
      cases b with
      | zero => exact absurd rfl hab
      | succ m => simp [List.set, List.getD_cons_succ]
    | succ n =>
      cases b with
      | zero => simp [List.set, List.getD_cons_zero]
      | succ m =>
        simp only [List.set, List.getD_cons_succ]
        exact ih n m (fun h => hab (by omega))

/-- C1: Outcome conservation. For any job set J submitted before join
and any number k ≥ 1 of workers, along any interleaving of worker
actions: once every worker has terminated (which is what join_all
waits for), the success queue plus the failure queue hold exactly |J|
outcomes — every pulled job yielded exactly one outcome. -/
theorem outcome_conservation {Job Resp Err : Type} (exec : Job → Except Err Resp)
    (J : List Job) (k : Nat) (hk : 0 < k) (s : WState Job Resp Err)
    (hreach : Relation.ReflTransGen (WStep exec) (initWState Job Resp Err J k) s)
    (hdone : s.workers.all isDeadW = true) :
    s.successes.length + s.failures.length = J.length := by
  obtain ⟨hm, hd⟩ := wInv_reachable exec hreach (wInv_init J k hk)
  have hjobs := hd hdone
  have hbusy := all_dead_no_busy s.workers hdone
  unfold wMeasure at hm
  rw [hjobs] at hm
  simp only [List.length_nil] at hm
  omega

/-- A transport that always succeeds, echoing the job. -/
def execOkNat : Nat → Except Nat Nat := fun j => Except.ok j

/-- The state a single worker reaches after processing the job 5. -/
def wFinal : WState Nat Nat Nat :=
  { jobs := [], successes := [(5, 5)], failures := [], workers := [WStatus.dead] }

theorem outcome_conservation_witness :
    0 < 1 ∧
    Relation.ReflTransGen (WStep execOkNat) (initWState Nat Nat Nat [5] 1) wFinal ∧
    wFinal.workers.all isDeadW = true ∧
    wFinal.successes.length + wFinal.failures.length = ([5] : List Nat).length := by
  have h1 : WStep execOkNat (initWState Nat Nat Nat [5] 1)
      { jobs := [], successes := [], failures := [], workers := [WStatus.busy 5] } :=
    WStep.pull _ 0 5 [] rfl rfl
  have h2 : WStep execOkNat
      { jobs := [], successes := [], failures := [], workers := [WStatus.busy 5] }
      { jobs := [], successes := [(5, 5)], failures := [], workers := [WStatus.idle] } :=
    WStep.pushOk _ 0 5 5 rfl rfl
  have h3 : WStep execOkNat
      { jobs := [], successes := [(5, 5)], failures := [], workers := [WStatus.idle] }
      wFinal :=
    WStep.terminate _ 0 rfl rfl
  have hchain :
      Relation.ReflTransGen (WStep execOkNat) (initWState Nat Nat Nat [5] 1) wFinal :=
    Relation.ReflTransGen.head h1
      (Relation.ReflTransGen.head h2 (Relation.ReflTransGen.single h3))
  exact ⟨Nat.one_pos, hchain, rfl,
    outcome_conservation execOkNat [5] 1 Nat.one_pos wFinal hchain rfl⟩

/-- C2: a supplied worker count below 1 makes construction fail
synchronously with the ValueError message, before any session exists;
with no count supplied the default is cpu_count() with a minimum of 1
and construction succeeds, building that many workers. -/
theorem pool_init_validation {Client : Type} (job_queue : List PyDict)
    (initializer auth_generator : Option (Client → Client))
    (sessionCtor : Nat → Client) (cpuCount : Nat) (k : Int) (hk : k < 1) :
    poolInit job_queue initializer auth_generator (some k) sessionCtor cpuCount =
        Except.error "Number of processes should at least be 1." ∧
      poolInit job_queue initializer auth_generator none sessionCtor cpuCount =
        Except.ok
          { job_queue := job_queue
            response_queue := []
            exc_queue := []
            processes := max cpuCount 1
            pool := List.map
              (fun i => newSession (auth_generator.getD _identity)
                (initializer.getD _identity) (sessionCtor i))
              (List.range (max cpuCount 1)) } := by
  constructor
  · unfold poolInit
    rw [if_pos hk]
  · unfold poolInit
    have hmax : (if cpuCount = 0 then 1 else cpuCount) = max cpuCount 1 := by
      by_cases h : cpuCount = 0
      · simp [h]
      · simp only [h, if_false]
        omega
    show (if ((if cpuCount = 0 then 1 else cpuCount : Nat) : Int) < 1 then _ else _) = _
    rw [hmax, if_neg (by omega), Int.toNat_natCast]

theorem pool_init_validation_witness :
    ((0 : Int) < 1) ∧
    (poolInit ([] : List PyDict) none none (some 0) (fun i => i) 4 =
        Except.error "Number of processes should at least be 1." ∧
      poolInit ([] : List PyDict) none none none (fun i => i) 4 =
        Except.ok
          { job_queue := []
            response_queue := []
            exc_queue := []
            processes := max 4 1
            pool := List.map
              (fun i => newSession ((none : Option (Nat → Nat)).getD _identity)
                ((none : Option (Nat → Nat)).getD _identity) ((fun i => i) i))
              (List.range (max 4 1)) }) :=
  ⟨by decide, pool_init_validation [] none none (fun i => i) 4 0 (by decide)⟩

/-- C3: from_urls builds one job per url, in iteration order; the job
for the i-th url is the dict (method: GET) updated with request_kwargs
and then with that url, so request_kwargs overrides the GET default and
the per-element url overrides any url key of request_kwargs, while
every other key is passed through from request_kwargs. -/
theorem from_urls_jobs_spec (urls : List String) (request_kwargs : PyDict)
    (i : Nat) (key : String)
    (hwf : (dictKeys request_kwargs).Nodup) (hi : i < urls.length)
    (hku : key ≠ "url") (hkm : key ≠ "method") :
    (fromUrlsJobs urls request_kwargs).length = urls.length ∧
    (fromUrlsJobs urls request_kwargs).getD i [] =
      dictUpdate (dictUpdate [("method", Value.str "GET")] request_kwargs)
        [("url", Value.str (urls.getD i ""))] ∧
    dictLookup ((fromUrlsJobs urls request_kwargs).getD i []) "url" =
      some (Value.str (urls.getD i "")) ∧
    dictLookup ((fromUrlsJobs urls request_kwargs).getD i []) "method" =
      optOr (dictLookup request_kwargs "method") (some (Value.str "GET")) ∧
    dictLookup ((fromUrlsJobs urls request_kwargs).getD i []) key =
      dictLookup request_kwargs key := by
  have hjobs : fromUrlsJobs urls request_kwargs =
      List.map
        (fun url => dictUpdate
          (dictUpdate [("method", Value.str "GET")] request_kwargs)
          [("url", Value.str url)]) urls := by
    unfold fromUrlsJobs
    exact (foldl_put_eq_map _ urls []).trans (by simp)
  have hlen : (fromUrlsJobs urls request_kwargs).length = urls.length := by
    rw [hjobs, List.length_map]
  have hget : (fromUrlsJobs urls request_kwargs).getD i [] =
      dictUpdate (dictUpdate [("method", Value.str "GET")] request_kwargs)
        [("url", Value.str (urls.getD i ""))] := by
    rw [hjobs]
    rw [List.getD_eq_getElem _ _ (by simpa using hi), List.getD_eq_getElem _ _ hi,
      List.getElem_map]
  have hbase : dictLookup [("method", Value.str "GET")] "method" =
      some (Value.str "GET") := rfl
  refine ⟨hlen, hget, ?_, ?_, ?_⟩
  · rw [hget, dictUpdate_single, dictLookup_dictSet]
    simp
  · rw [hget, dictUpdate_single, dictLookup_dictSet, if_neg (by simp),
      dictLookup_dictUpdate _ _ _ hwf, hbase]
  · rw [hget, dictUpdate_single, dictLookup_dictSet, if_neg hku,
      dictLookup_dictUpdate _ _ _ hwf]
    have hmk : "method" ≠ key := fun h => hkm h.symm
    have : dictLookup [("method", Value.str "GET")] key = none := by
      simp [dictLookup, hmk]
    rw [this, optOr_none_right]

theorem from_urls_jobs_spec_witness :
    ((dictKeys [("url", Value.str "X"), ("tries", Value.num 3)]).Nodup) ∧
    (1 < (["http://a", "http://b"] : List String).length) ∧
    ("tries" ≠ "url") ∧ ("tries" ≠ "method") ∧
    ((fromUrlsJobs ["http://a", "http://b"]
        [("url", Value.str "X"), ("tries", Value.num 3)]).length = 2) := by
  refine ⟨by decide, by decide, by decide, by decide, ?_⟩
  exact (from_urls_jobs_spec ["http://a", "http://b"]
    [("url", Value.str "X"), ("tries", Value.num 3)] 1 "tries"
    (by decide) (by decide) (by decide) (by decide)).1

/-- C4: from_exceptions queues exactly the request_kwargs of the
supplied failures, in order, and hands everything else to the Pool
constructor. -/
theorem from_exceptions_spec {Client : Type} (excs : List ThreadExceptionM)
    (initializer auth_generator : Option (Client → Client))
    (num_processes : Option Int) (sessionCtor : Nat → Client) (cpuCount : Nat) :
    fromExceptionsJobs excs = List.map (fun exc => exc.request_kwargs) excs ∧
    from_exceptions excs initializer auth_generator num_processes
        sessionCtor cpuCount =
      poolInit (List.map (fun exc => exc.request_kwargs) excs) initializer
        auth_generator num_processes sessionCtor cpuCount := by
  have h : fromExceptionsJobs excs = List.map (fun exc => exc.request_kwargs) excs := by
    unfold fromExceptionsJobs
    exact (foldl_put_eq_map _ excs []).trans (by simp)
  exact ⟨h, by unfold from_exceptions; rw [h]⟩

/-- C5: get_response and get_exception are non-blocking pops: on an
empty queue they return None and change nothing, and stay None over any
number of repeated calls; on a non-empty queue they remove the front
element and return it wrapped. -/
theorem get_nonblocking (n : Nat) (x : PyDict × Value)
    (xs : List (PyDict × Value)) :
    getResponse ([] : List (PyDict × Value)) = (none, []) ∧
    getException ([] : List (PyDict × Value)) = (none, []) ∧
    repeatGetResponse n [] = (List.replicate n none, []) ∧
    repeatGetException n [] = (List.replicate n none, []) ∧
    getResponse (x :: xs) = (some (threadResponseFromQueue x), xs) ∧
    getException (x :: xs) = (some (threadExceptionFromQueue x), xs) := by
  refine ⟨rfl, rfl, ?_, ?_, rfl, rfl⟩
  · induction n with
    | zero => rfl
    | succ m ih =>
      simp [repeatGetResponse, getResponse, getNowait, ih, List.replicate_succ]
  · induction n with
    | zero => rfl
    | succ m ih =>
      simp [repeatGetException, getException, getNowait, ih, List.replicate_succ]

/-- C6: the responses() and exceptions() generators drain their queue:
run with no concurrent producer they yield exactly the queued outcomes,
wrapped, in FIFO order, and leave the queue empty. -/
theorem drain_spec (q : List (PyDict × Value)) :
    responsesDrain q = (List.map threadResponseFromQueue q, []) ∧
    exceptionsDrain q = (List.map threadExceptionFromQueue q, []) := by
  constructor
  · induction q with
    | nil => rfl
    | cons x xs ih => simp [responsesDrain, ih]
  · induction q with
    | nil => rfl
    | cons x xs ih => simp [exceptionsDrain, ih]

/-- C7 counterexample: the name attrs is not among the two fixed
fields, yet accessing it on a wrapper whose response has its own attrs
attribute returns the class frozenset, not the forwarded value. -/
theorem proxy_forwarding_counterexample :
    ("attrs" ≠ "request_kwargs") ∧ ("attrs" ≠ "response") ∧
    threadResponseGetattr
        { request_kwargs := [],
          response := Value.obj [("attrs", Value.str "inner")] } "attrs" ≠
      objGetattr (Value.obj [("attrs", Value.str "inner")]) "attrs" := by
  refine ⟨by decide, by decide, ?_⟩
  intro h
  have h2 : Value.fset ["request_kwargs", "response"] = Value.str "inner" :=
    Option.some.inj h
  exact Value.noConfusion h2

/-- C7 (amended): the two fixed fields return the stored request
description and result object unchanged; an attribute name that is
neither a fixed field nor an attribute of the wrapper class is
forwarded to the wrapped response (or exception); building a wrapper
from a queue pair is pure. -/
theorem proxy_fixed_and_forwarding (w : ThreadResponseM) (e : ThreadExceptionM)
    (rk : PyDict) (v : Value) (name : String)
    (h1 : name ≠ "request_kwargs") (h2 : name ≠ "response")
    (h3 : name ≠ "exception")
    (h4 : threadProxyClassLookup "response" ["request_kwargs", "response"] name
      = none)
    (h5 : threadProxyClassLookup "exception" ["request_kwargs", "exception"] name
      = none) :
    threadResponseGetattr w "request_kwargs" = some (Value.dict w.request_kwargs) ∧
    threadResponseGetattr w "response" = some w.response ∧
    threadExceptionGetattr e "request_kwargs" = some (Value.dict e.request_kwargs) ∧
    threadExceptionGetattr e "exception" = some e.exception ∧
    threadResponseGetattr w name = objGetattr w.response name ∧
    threadExceptionGetattr e name = objGetattr e.exception name ∧
    threadResponseFromQueue (rk, v) = { request_kwargs := rk, response := v } ∧
    threadExceptionFromQueue (rk, v) = { request_kwargs := rk, exception := v } := by
  refine ⟨rfl, rfl, rfl, rfl, ?_, ?_, rfl, rfl⟩
  · unfold threadResponseGetattr
    rw [if_neg h1, if_neg h2, h4]
    simp [h1, h2]
  · unfold threadExceptionGetattr
    rw [if_neg h1, if_neg h3, h5]
    simp [h1, h3]

theorem proxy_fixed_and_forwarding_witness :
    ("status_code" ≠ "request_kwargs") ∧ ("status_code" ≠ "response") ∧
    ("status_code" ≠ "exception") ∧
    (threadProxyClassLookup "response" ["request_kwargs", "response"]
      "status_code" = none) ∧
    (threadProxyClassLookup "exception" ["request_kwargs", "exception"]
      "status_code" = none) ∧
    (threadResponseGetattr
        { request_kwargs := [], response := Value.obj [("status_code", Value.num 200)] }
        "status_code" =
      objGetattr (Value.obj [("status_code", Value.num 200)]) "status_code") := by
  refine ⟨by decide, by decide, by decide, rfl, rfl, ?_⟩
  exact (proxy_fixed_and_forwarding
    { request_kwargs := [], response := Value.obj [("status_code", Value.num 200)] }
    { request_kwargs := [], exception := Value.obj [] } [] (Value.num 0)
    "status_code" (by decide) (by decide) (by decide) rfl rfl).2.2.2.2.1

/-- C8: each worker session is built exactly once, at construction, as
auth_generator applied to initializer applied to one fresh session
constructor call; a missing initializer or auth_generator behaves as
the identity; the pool holds one such session per worker. -/
theorem sessions_at_construction {Client : Type} (job_queue : List PyDict)
    (f g : Client → Client) (k : Int) (sessionCtor : Nat → Client)
    (cpuCount : Nat) (p q : PoolModel Client) (i : Nat)
    (hk : 1 ≤ k)
    (hp : poolInit job_queue (some f) (some g) (some k) sessionCtor cpuCount =
      Except.ok p)
    (hq : poolInit job_queue none none (some k) sessionCtor cpuCount =
      Except.ok q)
    (hi : i < k.toNat) :
    p.pool.length = k.toNat ∧
    p.pool.getD i (sessionCtor i) = g (f (sessionCtor i)) ∧
    q.pool.length = k.toNat ∧
    q.pool.getD i (sessionCtor i) = sessionCtor i := by
  unfold poolInit at hp hq
  rw [if_neg (show ¬ (k < 1) from by omega)] at hp hq
  have hpe := (Except.ok.inj hp).symm
  have hqe := (Except.ok.inj hq).symm
  subst hpe
  subst hqe
  have hlen : (List.map
      (fun i => newSession ((some g).getD _identity) ((some f).getD _identity)
        (sessionCtor i)) (List.range k.toNat)).length = k.toNat := by
    simp
  have hlenq : (List.map
      (fun i => newSession ((none : Option (Client → Client)).getD _identity)
        ((none : Option (Client → Client)).getD _identity)
        (sessionCtor i)) (List.range k.toNat)).length = k.toNat := by
    simp
  refine ⟨hlen, ?_, hlenq, ?_⟩
  · rw [List.getD_eq_getElem _ _ (by rw [hlen]; exact hi), List.getElem_map]
    simp [newSession, Option.getD, List.getElem_range]
  · rw [List.getD_eq_getElem _ _ (by rw [hlenq]; exact hi), List.getElem_map]
    simp [newSession, Option.getD, _identity, List.getElem_range]

theorem sessions_at_construction_witness :
    (1 ≤ (2 : Int)) ∧
    (poolInit ([] : List PyDict) (some (fun c => c + 1)) (some (fun c => c * 2))
        (some 2) (fun i => i) 0 =
      Except.ok
        { job_queue := [], response_queue := [], exc_queue := [],
          processes := 2, pool := [2, 4] }) ∧
    (poolInit ([] : List PyDict) none none (some 2) (fun i => i) 0 =
      Except.ok
        { job_queue := [], response_queue := [], exc_queue := [],
          processes := 2, pool := [0, 1] }) ∧
    (1 < (2 : Int).toNat) ∧
    (({ job_queue := [], response_queue := [], exc_queue := [],
        processes := 2, pool := [2, 4] } : PoolModel Nat).pool.getD 1 1 =
      (fun c => c * 2) ((fun c => c + 1) 1)) := by
  have hp : poolInit ([] : List PyDict) (some (fun c => c + 1))
      (some (fun c => c * 2)) (some 2) (fun i => i) 0 =
      Except.ok
        { job_queue := [], response_queue := [], exc_queue := [],
          processes := 2, pool := [2, 4] } := by
    unfold poolInit
    norm_num
    exact ⟨rfl, rfl⟩
  have hq : poolInit ([] : List PyDict) none none (some 2) (fun i => i) 0 =
      Except.ok
        { job_queue := [], response_queue := [], exc_queue := [],
          processes := 2, pool := [0, 1] } := by
    unfold poolInit
    norm_num
    exact ⟨rfl, rfl⟩
  refine ⟨by decide, hp, hq, by decide, ?_⟩
  exact (sessions_at_construction [] (fun c => c + 1) (fun c => c * 2) 2
    (fun i => i) 0
    { job_queue := [], response_queue := [], exc_queue := [],
      processes := 2, pool := [2, 4] }
    { job_queue := [], response_queue := [], exc_queue := [],
      processes := 2, pool := [0, 1] }
    1 (by decide) hp hq (by decide)).2.1

/-- C9: from_urls never mutates the request_kwargs dict of the caller, and
every enqueued job is a fresh, independent dict: the job addresses are
pairwise distinct, mutating one job changes neither another job nor
request_kwargs, and mutating request_kwargs after the call changes no
job. -/
theorem from_urls_no_aliasing (st : Store) (rkAddr : Nat) (urls : List String)
    (a b : Nat) (d : PyDict)
    (hrk : rkAddr < st.length)
    (ha : a ∈ (fromUrlsAlloc st rkAddr urls).2)
    (hb : b ∈ (fromUrlsAlloc st rkAddr urls).2)
    (hab : a ≠ b) :
    storeGet (fromUrlsAlloc st rkAddr urls).1 rkAddr = storeGet st rkAddr ∧
    (fromUrlsAlloc st rkAddr urls).2.Nodup ∧
    storeGet (storeSet (fromUrlsAlloc st rkAddr urls).1 a d) b =
      storeGet (fromUrlsAlloc st rkAddr urls).1 b ∧
    storeGet (storeSet (fromUrlsAlloc st rkAddr urls).1 a d) rkAddr =
      storeGet st rkAddr ∧
    storeGet (storeSet (fromUrlsAlloc st rkAddr urls).1 rkAddr d) a =
      storeGet (fromUrlsAlloc st rkAddr urls).1 a := by
  have hspec := fromUrlsAlloc_spec st rkAddr urls
  have haddr : (fromUrlsAlloc st rkAddr urls).2 = List.range' st.length urls.length := by
    rw [hspec]
  have hstore : (fromUrlsAlloc st rkAddr urls).1 =
      st ++ fromUrlsJobs urls (storeGet st rkAddr) := by
    rw [hspec]
  have hage : st.length ≤ a := by
    rw [haddr] at ha
    exact (List.mem_range'_1.mp ha).1
  have hbge : st.length ≤ b := by
    rw [haddr] at hb
    exact (List.mem_range'_1.mp hb).1
  have hrk_get : storeGet (fromUrlsAlloc st rkAddr urls).1 rkAddr = storeGet st rkAddr := by
    rw [hstore]
    unfold storeGet
    rw [List.getD_append _ _ _ _ hrk]
  refine ⟨hrk_get, ?_, ?_, ?_, ?_⟩
  · rw [haddr]
    exact List.nodup_range' st.length urls.length
  · unfold storeGet storeSet
    exact getD_set_ne _ a b d [] hab
  · unfold storeGet storeSet
    rw [getD_set_ne _ a rkAddr d [] (fun h => by omega)]
    exact hrk_get
  · unfold storeGet storeSet
    rw [getD_set_ne _ rkAddr a d [] (fun h => by omega)]

theorem from_urls_no_aliasing_witness :
    (0 < ([[("x", Value.num 0)], []] : Store).length) ∧
    (2 ∈ (fromUrlsAlloc [[("x", Value.num 0)], []] 0 ["u", "v"]).2) ∧
    (3 ∈ (fromUrlsAlloc [[("x", Value.num 0)], []] 0 ["u", "v"]).2) ∧
    ((2 : Nat) ≠ 3) ∧
    storeGet (fromUrlsAlloc [[("x", Value.num 0)], []] 0 ["u", "v"]).1 0 =
      storeGet [[("x", Value.num 0)], []] 0 := by
  refine ⟨by decide, ?_, ?_, by decide, ?_⟩
  · rw [fromUrlsAlloc_spec]
    decide
  · rw [fromUrlsAlloc_spec]
    decide
  · exact (from_urls_no_aliasing [[("x", Value.num 0)], []] 0 ["u", "v"] 2 3 []
      (by decide)
      (by rw [fromUrlsAlloc_spec]; decide)
      (by rw [fromUrlsAlloc_spec]; decide)
      (by decide)).1

/-- C10: attribute names the wrapper class itself defines — attrs,
proxied_attr, from_queue — are not among the two fixed instance fields
and yet are never forwarded: ordinary lookup resolves them on the class,
for every wrapper whatever its wrapped object holds. -/
theorem class_attrs_shadow_proxy (w : ThreadResponseM) (e : ThreadExceptionM) :
    threadResponseGetattr w "attrs" =
      some (Value.fset ["request_kwargs", "response"]) ∧
    threadResponseGetattr w "proxied_attr" = some (Value.str "response") ∧
    threadResponseGetattr w "from_queue" = some (Value.method "from_queue") ∧
    threadExceptionGetattr e "attrs" =
      some (Value.fset ["request_kwargs", "exception"]) ∧
    threadExceptionGetattr e "proxied_attr" = some (Value.str "exception") ∧
    threadExceptionGetattr e "from_queue" = some (Value.method "from_queue") :=
  ⟨rfl, rfl, rfl, rfl, rfl, rfl⟩
